import Mathlib

/-!
Verification of `piicatcher/scanner.py` (pattern scanner, NER scanner and
column-name scanner) against its specification.

The column-name scanner works with patterns compiled by Python's `re`
module with `re.IGNORECASE` and tested with `pattern.match(text)`.  The
patterns appearing in the source use only a small, star-free fragment of
the regex language: literal characters, `.*`, alternation `(a|b|...)`
(possibly with an empty alternative, as in `user(id|name|)`), a leading
`^` and a trailing `$`.  We embed exactly that fragment:

* `RE` is the abstract syntax of a pattern body (everything between the
  optional anchors): `eps` (empty), `lit c` (a literal character, compared
  case-insensitively because every compile in the source passes
  `re.IGNORECASE`), `dotStar` (`.*`: a possibly empty run of characters,
  none of which is a newline, since `.` does not match `\n` without
  `re.DOTALL`), `alt` and `cat`.
* `RE.Matches r s` is the denotational semantics: `r` matches exactly the
  character list `s`.
* `munch r s` is the executable matcher: the list of suffixes `v` such
  that `s = u ++ v` for some `u` matched by `r`.
* A `CompiledPattern` pairs a body with an `endAnchor` flag recording
  whether the pattern ends in `$`.  `CompiledPattern.pymatch` models
  Python's `pattern.match(text) is not None`: matching is anchored at the
  start of the string (so a leading `^` is vacuous and is not
  represented), the end is unconstrained unless the pattern ends in `$`,
  and `$` asserts the end of the string or the position just before a
  single trailing newline.

The enumeration `piicatcher.piitypes.PiiTypes` is imported by the scanner
module but its definition is not among the provided sources; it is
modelled from the spec below.
-/

namespace Piicatcher

/-- Modelled from the spec: the `PiiTypes` enumeration
(`piicatcher/piitypes.py` is not among the provided sources).  The spec
describes it as a fixed, closed set of category tags; we model the closed
vocabulary with the members the scanners reference. -/
inductive PiiTypes where
  | PHONE
  | EMAIL
  | CREDIT_CARD
  | ADDRESS
  | PERSON
  | LOCATION
  | BIRTH_DATE
  | GENDER
  | NATIONALITY
  | USER_NAME
  | PASSWORD
  | SSN
deriving DecidableEq, Repr

/-- Abstract syntax of the star-free regex fragment used by the source. -/
inductive RE where
  | eps
  | lit (c : Char)
  | dotStar
  | alt (r₁ r₂ : RE)
  | cat (r₁ r₂ : RE)
deriving DecidableEq, Repr

/-- Denotational semantics: `r.Matches s` holds when the pattern body `r`
matches exactly the character list `s`.  Literals compare
case-insensitively (`re.IGNORECASE`); `dotStar` (`.*`) matches any run of
non-newline characters. -/
def RE.Matches : RE → List Char → Prop
  | .eps, s => s = []
  | .lit c, s => ∃ d, s = [d] ∧ d.toLower = c.toLower
  | .dotStar, s => ∀ c ∈ s, c ≠ '\n'
  | .alt r₁ r₂, s => r₁.Matches s ∨ r₂.Matches s
  | .cat r₁ r₂, s => ∃ u v, s = u ++ v ∧ r₁.Matches u ∧ r₂.Matches v

/-- The suffixes of `s` obtainable by consuming a (possibly empty) run of
non-newline characters from the front: the executable matcher for `.*`. -/
def ntails : List Char → List (List Char)
  | [] => [[]]
  | c :: s => (c :: s) :: (if c = '\n' then [] else ntails s)

/-- Executable matcher: all suffixes `v` such that `s = u ++ v` with `u`
matched by `r`. -/
def munch : RE → List Char → List (List Char)
  | .eps, s => [s]
  | .lit _, [] => []
  | .lit c, d :: s => if d.toLower = c.toLower then [s] else []
  | .dotStar, s => ntails s
  | .alt r₁ r₂, s => munch r₁ s ++ munch r₂ s
  | .cat r₁ r₂, s => (munch r₁ s).flatMap (munch r₂)

/-- Executable exact match: `r` matches the whole of `s`. -/
def rmatch (r : RE) (s : List Char) : Bool :=
  (munch r s).contains []

/-- A pattern as compiled by `re.compile(p, re.IGNORECASE)` in the
source: a body plus a flag recording whether the pattern ends in `$`.
Case-insensitivity is baked into the matching semantics since every
compile in the source passes `re.IGNORECASE`. -/
structure CompiledPattern where
  body : RE
  endAnchor : Bool
deriving DecidableEq, Repr

/-- Python's `pattern.match(text) is not None`: anchored at the start of
the string; if the pattern ends in `$`, the remaining suffix after the
body must be empty or a single trailing newline, otherwise it is
unconstrained. -/
def CompiledPattern.pymatch (p : CompiledPattern) (s : List Char) : Bool :=
  if p.endAnchor then
    (munch p.body s).any (fun v => v.isEmpty || v == ['\n'])
  else
    !(munch p.body s).isEmpty

/-- A literal token, e.g. `lits "fname"`. -/
def lits (tok : String) : RE :=
  tok.data.foldr (fun c r => RE.cat (RE.lit c) r) RE.eps

/-- An alternation of literal tokens, e.g. `(firstname|fname|...)`. -/
def altTokens : List String → RE
  | [] => RE.eps
  | [t] => lits t
  | t :: ts => RE.alt (lits t) (altTokens ts)

/-- Pattern `^.*(body).*$` as compiled in the source's rule table. -/
def anchoredRule (body : RE) : CompiledPattern :=
  ⟨RE.cat RE.dotStar (RE.cat body RE.dotStar), true⟩

/-! ## Pattern Scanner (`RegexScanner`)

`RegexScanner.scan` constructs `CommonRegex(text)` (an external library)
and reads its `phones`, `emails`, `credit_cards` and `street_addresses`
match lists.  The library is modelled as a parameter producing those four
lists; Python truthiness of a list is non-emptiness. -/

/-- The result object built by the external `commonregex` library. -/
structure CommonRegex where
  phones : List String
  emails : List String
  credit_cards : List String
  street_addresses : List String

namespace RegexScanner

/-- Method `RegexScanner.scan`, parameterised by the external `CommonRegex`
constructor.  Mirrors the four `if` / `append` statements of the source. -/
def scan (commonRegex : String → CommonRegex) (text : String) : List PiiTypes :=
  let regex_result := commonRegex text
  ((((([] : List PiiTypes) ++
    (if regex_result.phones ≠ [] then [PiiTypes.PHONE] else [])) ++
    (if regex_result.emails ≠ [] then [PiiTypes.EMAIL] else [])) ++
    (if regex_result.credit_cards ≠ [] then [PiiTypes.CREDIT_CARD] else [])) ++
    (if regex_result.street_addresses ≠ [] then [PiiTypes.ADDRESS] else []))

end RegexScanner

/-! ## Entity Scanner (`NERScanner`)

`NERScanner.scan` runs the spaCy pipeline (`self.nlp`, loaded at
construction) over the text and inspects each entity's `label_`.  The
pipeline is modelled as a parameter producing the list `doc.ents`. -/

/-- A recognized entity span; the scanner inspects only its label. -/
structure Entity where
  label_ : String

namespace NERScanner

/-- One iteration of the `for ent in doc.ents` loop: the three `if`
statements adding to the `types` set. -/
def step (types : Finset PiiTypes) (ent : Entity) : Finset PiiTypes :=
  let types := if ent.label_ = "PERSON" then insert PiiTypes.PERSON types else types
  let types := if ent.label_ = "GPE" then insert PiiTypes.LOCATION types else types
  let types := if ent.label_ = "DATE" then insert PiiTypes.BIRTH_DATE types else types
  types

/-- Method `NERScanner.scan`, parameterised by the loaded pipeline.  The Python
`set` accumulated by the loop is modelled as a `Finset` (the source
returns `list(types)`, whose order is the unspecified set-iteration
order). -/
def scan (nlp : String → List Entity) (text : String) : Finset PiiTypes :=
  (nlp text).foldl step ∅

end NERScanner

/-! ## Identifier-Name Scanner (`ColumnNameScanner`) -/

namespace ColumnNameScanner

/-- Tokens `(firstname|fname|lastname|lname|fullname|maidenname|_name|nickname|name_suffix|name)` -/
def personTokens : List String :=
  ["firstname", "fname", "lastname", "lname", "fullname", "maidenname",
   "_name", "nickname", "name_suffix", "name"]

/-- Tokens `(email|e-mail|mail)` -/
def emailTokens : List String := ["email", "e-mail", "mail"]

/-- Tokens `(date_of_birth|dateofbirth|dob|birthday|date_of_death|dateofdeath)` -/
def birthDateTokens : List String :=
  ["date_of_birth", "dateofbirth", "dob", "birthday", "date_of_death", "dateofdeath"]

/-- Tokens `(gender)` -/
def genderTokens : List String := ["gender"]

/-- Tokens `(nationality)` -/
def nationalityTokens : List String := ["nationality"]

/-- Tokens `(addr|state|county|country|zipcode|postal|zone|borough|line1|line_|line2|pincode|landmark|contact)` -/
def addressTokens : List String :=
  ["addr", "state", "county", "country", "zipcode", "postal", "zone",
   "borough", "line1", "line_", "line2", "pincode", "landmark", "contact"]

/-- Tokens `(pass|access_token)` -/
def passwordTokens : List String := ["pass", "access_token"]

/-- Tokens `(ssn|social|aadhar|adhaar|aadhaar|pan)` -/
def ssnTokens : List String := ["ssn", "social", "aadhar", "adhaar", "aadhaar", "pan"]

/-- Tokens `(phone|mobile|mob_)` -/
def phoneTokens : List String := ["phone", "mobile", "mob_"]

/-- Tokens `(location|lat|lon)` -/
def locationTokens : List String := ["location", "lat", "lon"]

/-- The body `user(id|name|)` of the USER_NAME rule: `user` followed by
`id`, `name`, or nothing. -/
def userNameBody : RE :=
  RE.cat (lits "user") (RE.alt (lits "id") (RE.alt (lits "name") RE.eps))

/-- The class attribute `ColumnNameScanner.regex`: the rule table mapping
each `PiiTypes` to its compiled `^.*(...).*$` pattern, in the source's
insertion order.  Modelled as an association list since the scan loop
iterates over it. -/
def regex : List (PiiTypes × CompiledPattern) :=
  [(PiiTypes.PERSON, anchoredRule (altTokens personTokens)),
   (PiiTypes.EMAIL, anchoredRule (altTokens emailTokens)),
   (PiiTypes.BIRTH_DATE, anchoredRule (altTokens birthDateTokens)),
   (PiiTypes.GENDER, anchoredRule (altTokens genderTokens)),
   (PiiTypes.NATIONALITY, anchoredRule (altTokens nationalityTokens)),
   (PiiTypes.ADDRESS, anchoredRule (altTokens addressTokens)),
   (PiiTypes.USER_NAME, ⟨RE.cat RE.dotStar (RE.cat userNameBody RE.dotStar), true⟩),
   (PiiTypes.PASSWORD, anchoredRule (altTokens passwordTokens)),
   (PiiTypes.SSN, anchoredRule (altTokens ssnTokens)),
   (PiiTypes.PHONE, anchoredRule (altTokens phoneTokens)),
   (PiiTypes.LOCATION, anchoredRule (altTokens locationTokens))]

/-- Constructor `ColumnNameScanner.__init__`: `self._exclude_regex = None`; if the
`exclude_regex` tuple is non-empty, compile its first element (the rest
are ignored).  Compilation of an already-parsed pattern is the identity;
`re.IGNORECASE` is baked into the matching semantics. -/
def init (exclude_regex : List CompiledPattern) : Option CompiledPattern :=
  if h : 0 < exclude_regex.length then some (exclude_regex.get ⟨0, h⟩) else none

/-- The body of `ColumnNameScanner.scan` as a function of the rule table
it iterates over: both branches of the source's `if self._exclude_regex
is not None`, each a loop over the table inserting the matching rule's
`PiiTypes` into the `types` set. -/
def scanTable (table : List (PiiTypes × CompiledPattern))
    (exclude_regex : Option CompiledPattern) (text : String) : Finset PiiTypes :=
  match exclude_regex with
  | some ex =>
      table.foldl
        (fun types r =>
          if r.2.pymatch text.data && !(ex.pymatch text.data) then insert r.1 types
          else types) ∅
  | none =>
      table.foldl
        (fun types r =>
          if r.2.pymatch text.data then insert r.1 types else types) ∅

/-- Method `ColumnNameScanner.scan`: the loop over the class rule table.  The
Python `set` is modelled as a `Finset` (the source returns
`list(types)`). -/
def scan (exclude_regex : Option CompiledPattern) (text : String) : Finset PiiTypes :=
  scanTable regex exclude_regex text

/-- A `ColumnNameScanner` instance: its only state is the optional
compiled exclusion pattern and the rule table it reads. -/
structure Self where
  exclude_regex : Option CompiledPattern
  regex : List (PiiTypes × CompiledPattern)

/-- The `scan` method in explicit state-passing form: the body reads
`self.regex` and `self._exclude_regex`, builds a local set, and never
assigns to `self`, so the returned state is the received one. -/
def scanMethod (self : Self) (text : String) : Finset PiiTypes × Self :=
  (scanTable self.regex self.exclude_regex text, self)

/-- Run a sequence of `scan` calls against an instance, threading the
instance state through. -/
def runCalls : Self → List String → List (Finset PiiTypes) × Self
  | self, [] => ([], self)
  | self, t :: ts =>
      let rself := scanMethod self t
      let rest := runCalls rself.2 ts
      (rself.1 :: rest.1, rest.2)

end ColumnNameScanner

/-! ## Correctness of the executable matcher -/

theorem mem_ntails {s v : List Char} :
    v ∈ ntails s ↔ ∃ u, s = u ++ v ∧ ∀ c ∈ u, c ≠ '\n' := by
  induction s with
  | nil =>
      simp only [ntails, List.mem_singleton]
      constructor
      · rintro rfl; exact ⟨[], rfl, by simp⟩
      · rintro ⟨u, hu, -⟩
        rcases List.append_eq_nil.mp hu.symm with ⟨rfl, rfl⟩
        rfl
  | cons c s ih =>
      by_cases hc : c = '\n'
      · have hn : ntails (c :: s) = [c :: s] := by
          simp [ntails, hc]
        rw [hn, List.mem_singleton]
        constructor
        · rintro rfl; exact ⟨[], rfl, by simp⟩
        · rintro ⟨u, hu, hnl⟩
          cases u with
          | nil => simpa using hu.symm
          | cons a u =>
              exfalso
              rw [List.cons_append] at hu
              have ha : c = a := (List.cons.injEq .. ▸ hu).1
              exact hnl a (by simp) (ha ▸ hc)
      · simp only [ntails, if_neg hc, List.mem_cons, ih]
        constructor
        · rintro (rfl | ⟨u, rfl, hnl⟩)
          · exact ⟨[], rfl, by simp⟩
          · exact ⟨c :: u, rfl, by
              intro x hx
              rcases List.mem_cons.mp hx with rfl | hx
              · exact hc
              · exact hnl x hx⟩
        · rintro ⟨u, hu, hnl⟩
          cases u with
          | nil => left; simpa using hu.symm
          | cons a u =>
              right
              rcases List.cons.injEq .. ▸ hu with ⟨rfl, rfl⟩
              exact ⟨u, rfl, fun x hx => hnl x (List.mem_cons_of_mem _ hx)⟩

theorem mem_munch : ∀ (r : RE) (s v : List Char),
    v ∈ munch r s ↔ ∃ u, s = u ++ v ∧ r.Matches u := by
  intro r
  induction r with
  | eps =>
      intro s v
      simp only [munch, List.mem_singleton, RE.Matches]
      constructor
      · rintro rfl; exact ⟨[], rfl, rfl⟩
      · rintro ⟨u, rfl, rfl⟩; rfl
  | lit c =>
      intro s v
      cases s with
      | nil =>
          simp only [munch, List.not_mem_nil, false_iff, RE.Matches]
          rintro ⟨u, hu, d, rfl, -⟩
          simp at hu
      | cons a s =>
          simp only [munch, RE.Matches]
          by_cases h : a.toLower = c.toLower
          · simp only [if_pos h, List.mem_singleton]
            constructor
            · rintro rfl; exact ⟨[a], rfl, a, rfl, h⟩
            · rintro ⟨u, hu, d, rfl, hd⟩
              rcases List.cons.injEq .. ▸ hu with ⟨rfl, rfl⟩
              rfl
          · simp only [if_neg h, List.not_mem_nil, false_iff]
            rintro ⟨u, hu, d, rfl, hd⟩
            rcases List.cons.injEq .. ▸ hu with ⟨rfl, rfl⟩
            exact h hd
  | dotStar =>
      intro s v
      simpa only [munch, RE.Matches] using mem_ntails
  | alt r₁ r₂ ih₁ ih₂ =>
      intro s v
      simp only [munch, List.mem_append, ih₁, ih₂, RE.Matches]
      constructor
      · rintro (⟨u, rfl, hm⟩ | ⟨u, rfl, hm⟩)
        · exact ⟨u, rfl, Or.inl hm⟩
        · exact ⟨u, rfl, Or.inr hm⟩
      · rintro ⟨u, rfl, hm | hm⟩
        · exact Or.inl ⟨u, rfl, hm⟩
        · exact Or.inr ⟨u, rfl, hm⟩
  | cat r₁ r₂ ih₁ ih₂ =>
      intro s v
      simp only [munch, List.mem_flatMap, ih₁, ih₂, RE.Matches]
      constructor
      · rintro ⟨w, ⟨u₁, rfl, h₁⟩, u₂, rfl, h₂⟩
        exact ⟨u₁ ++ u₂, by simp [List.append_assoc], u₁, u₂, rfl, h₁, h₂⟩
      · rintro ⟨u, rfl, u₁, u₂, rfl, h₁, h₂⟩
        exact ⟨u₂ ++ v, ⟨u₁, by simp [List.append_assoc], h₁⟩, u₂, rfl, h₂⟩

theorem rmatch_eq_true_iff {r : RE} {s : List Char} :
    rmatch r s = true ↔ r.Matches s := by
  simp only [rmatch, List.contains_eq_any_beq, List.any_eq_true, beq_iff_eq,
    mem_munch]
  constructor
  · rintro ⟨v, ⟨u, rfl, hm⟩, rfl⟩
    simpa using hm
  · intro hm
    exact ⟨[], ⟨s, by simp, hm⟩, rfl⟩

/-- Test `pattern.match(text) is not None`: some prefix of the text is matched
by the body, and if the pattern ends in `$` the remaining suffix is empty
or a single trailing newline. -/
theorem pymatch_eq_true_iff {p : CompiledPattern} {s : List Char} :
    p.pymatch s = true ↔
      ∃ u v, s = u ++ v ∧ p.body.Matches u ∧
        (p.endAnchor = true → v = [] ∨ v = ['\n']) := by
  unfold CompiledPattern.pymatch
  by_cases h : p.endAnchor
  · simp only [if_pos h, List.any_eq_true, Bool.or_eq_true, List.isEmpty_iff,
      beq_iff_eq, mem_munch]
    constructor
    · rintro ⟨v, ⟨u, rfl, hm⟩, hv⟩
      exact ⟨u, v, rfl, hm, fun _ => hv⟩
    · rintro ⟨u, v, rfl, hm, hv⟩
      exact ⟨v, ⟨u, rfl, hm⟩, hv h⟩
  · simp only [if_neg h, Bool.not_eq_true', List.isEmpty_eq_false_iff_exists_mem,
      mem_munch]
    constructor
    · rintro ⟨v, u, rfl, hm⟩
      exact ⟨u, v, rfl, hm, fun hh => absurd hh h⟩
    · rintro ⟨u, v, rfl, hm, -⟩
      exact ⟨v, u, rfl, hm⟩

/-! ## Token alternations -/

theorem foldr_lit_matches : ∀ (l : List Char) (v : List Char),
    (l.foldr (fun c r => RE.cat (RE.lit c) r) RE.eps).Matches v ↔
      v.map Char.toLower = l.map Char.toLower := by
  intro l
  induction l with
  | nil =>
      intro v
      simp [RE.Matches, List.map_eq_nil_iff]
  | cons c l ih =>
      intro v
      simp only [List.foldr_cons, RE.Matches]
      constructor
      · rintro ⟨u, w, rfl, ⟨d, rfl, hd⟩, hw⟩
        simp [hd, (ih w).mp hw]
      · intro hv
        cases v with
        | nil => simp at hv
        | cons a v =>
            simp only [List.map_cons, List.cons.injEq] at hv
            exact ⟨[a], v, rfl, ⟨a, rfl, hv.1⟩, (ih v).mpr hv.2⟩

/-- A literal token matches exactly its own spelling, up to case. -/
theorem lits_matches {tok : String} {v : List Char} :
    (lits tok).Matches v ↔ v.map Char.toLower = tok.data.map Char.toLower :=
  foldr_lit_matches tok.data v

/-- An alternation of tokens matches exactly the spellings of its tokens,
up to case. -/
theorem altTokens_matches : ∀ (toks : List String), toks ≠ [] → ∀ v : List Char,
    (altTokens toks).Matches v ↔
      ∃ t ∈ toks, v.map Char.toLower = t.data.map Char.toLower := by
  intro toks
  induction toks with
  | nil => intro h; exact absurd rfl h
  | cons t ts ih =>
      intro _ v
      cases ts with
      | nil => simp [altTokens, lits_matches]
      | cons t' ts' =>
          have he : altTokens (t :: t' :: ts') = RE.alt (lits t) (altTokens (t' :: ts')) := rfl
          rw [he]
          simp only [RE.Matches, lits_matches, ih (by simp) v, List.mem_cons]
          constructor
          · rintro (h | ⟨x, hx, h⟩)
            · exact ⟨t, Or.inl rfl, h⟩
            · exact ⟨x, Or.inr hx, h⟩
          · rintro ⟨x, rfl | hx, h⟩
            · exact Or.inl h
            · exact Or.inr ⟨x, hx, h⟩

/-- Body `user(id|name|)` matches exactly what `(userid|username|user)` matches. -/
theorem userNameBody_matches : ∀ v : List Char,
    (ColumnNameScanner.userNameBody).Matches v ↔
      ∃ t ∈ (["userid", "username", "user"] : List String),
        v.map Char.toLower = t.data.map Char.toLower := by
  intro v
  have hdef : (ColumnNameScanner.userNameBody).Matches v ↔
      ∃ u w, v = u ++ w ∧ (lits "user").Matches u ∧
        ((lits "id").Matches w ∨ ((lits "name").Matches w ∨ w = [])) := Iff.rfl
  rw [hdef]
  simp only [lits_matches]
  constructor
  · rintro ⟨u, w, rfl, hu, hw | hw | rfl⟩
    · refine ⟨"userid", by simp, ?_⟩
      rw [List.map_append, hu, hw]; decide
    · refine ⟨"username", by simp, ?_⟩
      rw [List.map_append, hu, hw]; decide
    · exact ⟨"user", by simp, by simpa using hu⟩
  · rintro ⟨t, ht, hv⟩
    simp only [List.mem_cons, List.mem_singleton, List.not_mem_nil, or_false] at ht
    rcases ht with rfl | rfl | rfl
    · have hsplit : v.map Char.toLower =
          "user".data.map Char.toLower ++ "id".data.map Char.toLower := by
        rw [hv]; decide
      rcases List.map_eq_append_iff.mp hsplit with ⟨u, w, rfl, hu, hw⟩
      exact ⟨u, w, rfl, hu, Or.inl hw⟩
    · have hsplit : v.map Char.toLower =
          "user".data.map Char.toLower ++ "name".data.map Char.toLower := by
        rw [hv]; decide
      rcases List.map_eq_append_iff.mp hsplit with ⟨u, w, rfl, hu, hw⟩
      exact ⟨u, w, rfl, hu, Or.inr (Or.inl hw)⟩
    · exact ⟨v, [], by simp, hv, Or.inr (Or.inr rfl)⟩

/-! ## Anchored rules on newline-free input -/

/-- Pattern `^.*(B).*$` under `re.match`, on an input with no newline, matches
iff `B` matches some infix of the input. -/
theorem anchored_pymatch_iff (B : RE) (s : List Char) (hs : ∀ c ∈ s, c ≠ '\n') :
    CompiledPattern.pymatch ⟨RE.cat RE.dotStar (RE.cat B RE.dotStar), true⟩ s = true ↔
      ∃ u v w, s = u ++ v ++ w ∧ B.Matches v := by
  rw [pymatch_eq_true_iff]
  constructor
  · rintro ⟨u, v, rfl, hm, hv⟩
    rcases hv rfl with rfl | rfl
    · rcases hm with ⟨a, rest, rfl, -, b, c, rfl, hb, -⟩
      exact ⟨a, b, c, by simp [List.append_assoc], hb⟩
    · exact absurd rfl (hs '\n' (by simp))
  · rintro ⟨u, v, w, rfl, hB⟩
    refine ⟨u ++ v ++ w, [], by simp, ?_, fun _ => Or.inl rfl⟩
    refine ⟨u, v ++ w, List.append_assoc .., fun c hc => hs c ?_, v, w, rfl, hB,
      fun c hc => hs c ?_⟩
    · simp only [List.append_assoc, List.mem_append]
      exact Or.inl hc
    · simp only [List.append_assoc, List.mem_append]
      exact Or.inr (Or.inr hc)

/-- If the rule body matches exactly the (case-folded) spellings of a
token list, then the anchored rule matches a newline-free input iff some
token occurs in the input as a case-insensitive substring. -/
theorem body_pymatch_iff_substring (B : RE) (toks : List String)
    (hB : ∀ v : List Char,
      B.Matches v ↔ ∃ t ∈ toks, v.map Char.toLower = t.data.map Char.toLower)
    (s : List Char) (hs : ∀ c ∈ s, c ≠ '\n') :
    CompiledPattern.pymatch ⟨RE.cat RE.dotStar (RE.cat B RE.dotStar), true⟩ s = true ↔
      ∃ t ∈ toks, t.data.map Char.toLower <:+: s.map Char.toLower := by
  rw [anchored_pymatch_iff B s hs]
  constructor
  · rintro ⟨u, v, w, rfl, hm⟩
    rcases (hB v).mp hm with ⟨t, ht, hv⟩
    refine ⟨t, ht, u.map Char.toLower, w.map Char.toLower, ?_⟩
    rw [← hv]
    simp [List.map_append]
  · rintro ⟨t, ht, x, y, hxy⟩
    have h1 : s.map Char.toLower = (x ++ t.data.map Char.toLower) ++ y := by
      rw [← hxy]
    rcases List.map_eq_append_iff.mp h1 with ⟨a, b, rfl, ha, hb⟩
    rcases List.map_eq_append_iff.mp ha with ⟨u, v, rfl, -, hv⟩
    exact ⟨u, v, b, by rw [List.append_assoc], (hB v).mpr ⟨t, ht, hv⟩⟩

/-- The anchored token rule `^.*(tok₁|...|tokₙ).*$` on a newline-free
input matches iff some token occurs as a case-insensitive substring. -/
theorem rule_pymatch_iff_substring (toks : List String) (htoks : toks ≠ [])
    (s : List Char) (hs : ∀ c ∈ s, c ≠ '\n') :
    (anchoredRule (altTokens toks)).pymatch s = true ↔
      ∃ t ∈ toks, t.data.map Char.toLower <:+: s.map Char.toLower :=
  body_pymatch_iff_substring (altTokens toks) toks (altTokens_matches toks htoks) s hs

/-- The `USER_NAME` rule `^.*user(id|name|).*$` on a newline-free input
matches iff `userid`, `username` or `user` occurs as a case-insensitive
substring. -/
theorem user_pymatch_iff_substring (s : List Char) (hs : ∀ c ∈ s, c ≠ '\n') :
    CompiledPattern.pymatch
        ⟨RE.cat RE.dotStar (RE.cat ColumnNameScanner.userNameBody RE.dotStar), true⟩ s = true ↔
      ∃ t ∈ (["userid", "username", "user"] : List String),
        t.data.map Char.toLower <:+: s.map Char.toLower :=
  body_pymatch_iff_substring ColumnNameScanner.userNameBody _ userNameBody_matches s hs

/-! ## The scan loops -/

namespace ColumnNameScanner

/-- Membership in the fold that implements the scan loop. -/
theorem mem_foldl_insert (cond : PiiTypes × CompiledPattern → Bool) :
    ∀ (table : List (PiiTypes × CompiledPattern)) (acc : Finset PiiTypes) (p : PiiTypes),
      p ∈ table.foldl (fun types r => if cond r then insert r.1 types else types) acc ↔
        p ∈ acc ∨ ∃ r ∈ table, r.1 = p ∧ cond r = true := by
  intro table
  induction table with
  | nil => intro acc p; simp
  | cons r table ih =>
      intro acc p
      rw [List.foldl_cons, ih]
      by_cases h : cond r
      · simp only [if_pos h, Finset.mem_insert, List.mem_cons]
        constructor
        · rintro ((rfl | hp) | ⟨q, hq, rfl, hc⟩)
          · exact Or.inr ⟨r, Or.inl rfl, rfl, h⟩
          · exact Or.inl hp
          · exact Or.inr ⟨q, Or.inr hq, rfl, hc⟩
        · rintro (hp | ⟨q, rfl | hq, rfl, hc⟩)
          · exact Or.inl (Or.inr hp)
          · exact Or.inl (Or.inl rfl)
          · exact Or.inr ⟨q, hq, rfl, hc⟩
      · simp only [if_neg h, List.mem_cons]
        constructor
        · rintro (hp | ⟨q, hq, rfl, hc⟩)
          · exact Or.inl hp
          · exact Or.inr ⟨q, Or.inr hq, rfl, hc⟩
        · rintro (hp | ⟨q, rfl | hq, rfl, hc⟩)
          · exact Or.inl hp
          · exact absurd hc (by simpa using h)
          · exact Or.inr ⟨q, hq, rfl, hc⟩

/-- Membership in `scanTable`: a category is produced iff some rule of
the table carries it, the rule's pattern matches, and no configured
exclusion matches. -/
theorem mem_scanTable {table : List (PiiTypes × CompiledPattern)}
    {ex : Option CompiledPattern} {text : String} {p : PiiTypes} :
    p ∈ scanTable table ex text ↔
      ∃ r ∈ table, r.1 = p ∧ r.2.pymatch text.data = true ∧
        ∀ e ∈ ex, e.pymatch text.data = false := by
  cases ex with
  | none =>
      rw [scanTable, mem_foldl_insert (fun r => r.2.pymatch text.data)]
      simp
  | some e =>
      rw [scanTable, mem_foldl_insert
        (fun r => r.2.pymatch text.data && !(e.pymatch text.data))]
      simp only [Finset.not_mem_empty, false_or, Bool.and_eq_true,
        Bool.not_eq_true', Option.mem_def, Option.some.injEq]
      constructor
      · rintro ⟨r, hr, rfl, hm, he⟩
        exact ⟨r, hr, rfl, hm, fun x hx => hx ▸ he⟩
      · rintro ⟨r, hr, rfl, hm, he⟩
        exact ⟨r, hr, rfl, hm, he e rfl⟩

/-- The tokens of each category's rule, read off the rule table
(`USER_NAME`'s are the expansion of `user(id|name|)`; `CREDIT_CARD` has
no rule). -/
def tokensOf : PiiTypes → List String
  | .PERSON => personTokens
  | .EMAIL => emailTokens
  | .BIRTH_DATE => birthDateTokens
  | .GENDER => genderTokens
  | .NATIONALITY => nationalityTokens
  | .ADDRESS => addressTokens
  | .USER_NAME => ["userid", "username", "user"]
  | .PASSWORD => passwordTokens
  | .SSN => ssnTokens
  | .PHONE => phoneTokens
  | .LOCATION => locationTokens
  | .CREDIT_CARD => []

end ColumnNameScanner

namespace NERScanner

/-- Membership after one loop iteration. -/
theorem mem_step {types : Finset PiiTypes} {ent : Entity} {p : PiiTypes} :
    p ∈ step types ent ↔ p ∈ types ∨
      (ent.label_ = "PERSON" ∧ p = PiiTypes.PERSON) ∨
      (ent.label_ = "GPE" ∧ p = PiiTypes.LOCATION) ∨
      (ent.label_ = "DATE" ∧ p = PiiTypes.BIRTH_DATE) := by
  simp only [step]
  split_ifs with h1 h2 h3 <;> simp_all <;> tauto

/-- Membership in the loop over all entities. -/
theorem mem_ner_foldl : ∀ (ents : List Entity) (acc : Finset PiiTypes) (p : PiiTypes),
    p ∈ ents.foldl step acc ↔ p ∈ acc ∨ ∃ e ∈ ents,
      ((e.label_ = "PERSON" ∧ p = PiiTypes.PERSON) ∨
       (e.label_ = "GPE" ∧ p = PiiTypes.LOCATION) ∨
       (e.label_ = "DATE" ∧ p = PiiTypes.BIRTH_DATE)) := by
  intro ents
  induction ents with
  | nil => intro acc p; simp
  | cons e ents ih =>
      intro acc p
      rw [List.foldl_cons, ih, mem_step]
      simp only [List.mem_cons]
      constructor
      · rintro ((hp | hcase) | ⟨x, hx, hcase⟩)
        · exact Or.inl hp
        · exact Or.inr ⟨e, Or.inl rfl, hcase⟩
        · exact Or.inr ⟨x, Or.inr hx, hcase⟩
      · rintro (hp | ⟨x, rfl | hx, hcase⟩)
        · exact Or.inl (Or.inl hp)
        · exact Or.inl (Or.inr hcase)
        · exact Or.inr ⟨x, hx, hcase⟩

end NERScanner

/-! ## Claims -/

/-- Claim C1: with no exclusion filter, a `PiiTypes` is in the column-name
scan result iff its (case-insensitive) rule pattern matches the input;
with an exclusion filter, iff its rule pattern matches and the exclusion
does not; the exclusion veto is global: if the exclusion matches the
input, the result is empty. -/
theorem c1_identifier_scan_inclusion (text : String) (p : PiiTypes) :
    (p ∈ ColumnNameScanner.scan none text ↔
      ∃ r ∈ ColumnNameScanner.regex, r.1 = p ∧ r.2.pymatch text.data = true) ∧
    (∀ e : CompiledPattern,
      (p ∈ ColumnNameScanner.scan (some e) text ↔
        (∃ r ∈ ColumnNameScanner.regex, r.1 = p ∧ r.2.pymatch text.data = true) ∧
          e.pymatch text.data = false) ∧
      (e.pymatch text.data = true → ColumnNameScanner.scan (some e) text = ∅)) := by
  refine ⟨?_, fun e => ⟨?_, ?_⟩⟩
  · rw [ColumnNameScanner.scan, ColumnNameScanner.mem_scanTable]
    simp
  · rw [ColumnNameScanner.scan, ColumnNameScanner.mem_scanTable]
    constructor
    · rintro ⟨r, hr, rfl, hm, hex⟩
      exact ⟨⟨r, hr, rfl, hm⟩, hex e (Option.mem_def.mpr rfl)⟩
    · rintro ⟨⟨r, hr, rfl, hm⟩, hex⟩
      refine ⟨r, hr, rfl, hm, ?_⟩
      intro x hx
      rw [Option.mem_def, Option.some_inj] at hx
      exact hx ▸ hex
  · intro hm
    rw [ColumnNameScanner.scan]
    apply Finset.eq_empty_iff_forall_not_mem.mpr
    intro q hq
    rcases ColumnNameScanner.mem_scanTable.mp hq with ⟨r, hr, rfl, hmr, hex⟩
    rw [hex e (Option.mem_def.mpr rfl)] at hm
    exact Bool.noConfusion hm

/-- Claim C2: the pattern scanner emits exactly the categories among
PHONE, EMAIL, CREDIT_CARD, ADDRESS whose `CommonRegex` match list is
non-empty (one tag per category regardless of match count, empty result
when none matched, nothing outside those four). -/
theorem c2_regex_scan_characterization (commonRegex : String → CommonRegex)
    (text : String) (p : PiiTypes) :
    p ∈ RegexScanner.scan commonRegex text ↔
      ((p = PiiTypes.PHONE ∧ (commonRegex text).phones ≠ []) ∨
       (p = PiiTypes.EMAIL ∧ (commonRegex text).emails ≠ []) ∨
       (p = PiiTypes.CREDIT_CARD ∧ (commonRegex text).credit_cards ≠ []) ∨
       (p = PiiTypes.ADDRESS ∧ (commonRegex text).street_addresses ≠ [])) := by
  simp only [RegexScanner.scan, List.mem_append]
  split_ifs <;> simp_all <;> tauto

/-- Claim C3: the entity scanner returns exactly the image of the
recognized entity labels under PERSON ↦ PERSON, GPE ↦ LOCATION,
DATE ↦ BIRTH_DATE, ignoring all other labels, with duplicates
collapsed. -/
theorem c3_ner_scan_characterization (nlp : String → List Entity)
    (text : String) (p : PiiTypes) :
    p ∈ NERScanner.scan nlp text ↔
      ((p = PiiTypes.PERSON ∧ ∃ e ∈ nlp text, e.label_ = "PERSON") ∨
       (p = PiiTypes.LOCATION ∧ ∃ e ∈ nlp text, e.label_ = "GPE") ∨
       (p = PiiTypes.BIRTH_DATE ∧ ∃ e ∈ nlp text, e.label_ = "DATE")) := by
  rw [NERScanner.scan, NERScanner.mem_ner_foldl]
  simp only [Finset.not_mem_empty, false_or]
  constructor
  · rintro ⟨e, he, ⟨hl, rfl⟩ | ⟨hl, rfl⟩ | ⟨hl, rfl⟩⟩
    · exact Or.inl ⟨rfl, e, he, hl⟩
    · exact Or.inr (Or.inl ⟨rfl, e, he, hl⟩)
    · exact Or.inr (Or.inr ⟨rfl, e, he, hl⟩)
  · rintro (⟨rfl, e, he, hl⟩ | ⟨rfl, e, he, hl⟩ | ⟨rfl, e, he, hl⟩)
    · exact ⟨e, he, Or.inl ⟨hl, rfl⟩⟩
    · exact ⟨e, he, Or.inr (Or.inl ⟨hl, rfl⟩)⟩
    · exact ⟨e, he, Or.inr (Or.inr ⟨hl, rfl⟩)⟩

/-- Claim C4: `scan` is total for all three scanners — each is a total
function on arbitrary strings (including the empty string) returning a
possibly-empty set, and absence of any match is exactly the empty result
set, never an error. -/
theorem c4_scan_total (commonRegex : String → CommonRegex) (nlp : String → List Entity)
    (ex : Option CompiledPattern) (text : String) :
    (RegexScanner.scan commonRegex text = [] ↔
      (commonRegex text).phones = [] ∧ (commonRegex text).emails = [] ∧
      (commonRegex text).credit_cards = [] ∧ (commonRegex text).street_addresses = []) ∧
    (NERScanner.scan nlp text = ∅ ↔
      ∀ e ∈ nlp text, e.label_ ≠ "PERSON" ∧ e.label_ ≠ "GPE" ∧ e.label_ ≠ "DATE") ∧
    (ColumnNameScanner.scan ex text = ∅ ↔
      ∀ r ∈ ColumnNameScanner.regex, r.2.pymatch text.data = true →
        ∃ e ∈ ex, e.pymatch text.data = true) := by
  refine ⟨?_, ?_, ?_⟩
  · simp only [RegexScanner.scan]
    split_ifs <;> simp_all
  · rw [NERScanner.scan, Finset.eq_empty_iff_forall_not_mem]
    constructor
    · intro h e he
      refine ⟨?_, ?_, ?_⟩ <;> intro hl
      · exact h PiiTypes.PERSON
          ((NERScanner.mem_ner_foldl ..).mpr (Or.inr ⟨e, he, Or.inl ⟨hl, rfl⟩⟩))
      · exact h PiiTypes.LOCATION
          ((NERScanner.mem_ner_foldl ..).mpr (Or.inr ⟨e, he, Or.inr (Or.inl ⟨hl, rfl⟩)⟩))
      · exact h PiiTypes.BIRTH_DATE
          ((NERScanner.mem_ner_foldl ..).mpr (Or.inr ⟨e, he, Or.inr (Or.inr ⟨hl, rfl⟩)⟩))
    · intro h q hq
      rcases (NERScanner.mem_ner_foldl ..).mp hq with hq0 | ⟨e, he, hcase⟩
      · exact Finset.not_mem_empty q hq0
      · rcases hcase with ⟨hl, rfl⟩ | ⟨hl, rfl⟩ | ⟨hl, rfl⟩
        · exact (h e he).1 hl
        · exact (h e he).2.1 hl
        · exact (h e he).2.2 hl
  · rw [ColumnNameScanner.scan, Finset.eq_empty_iff_forall_not_mem]
    constructor
    · intro h r hr hm
      by_contra hno
      push_neg at hno
      refine h r.1 (ColumnNameScanner.mem_scanTable.mpr ⟨r, hr, rfl, hm, ?_⟩)
      intro e he
      simpa using hno e he
    · intro h q hq
      rcases ColumnNameScanner.mem_scanTable.mp hq with ⟨r, hr, rfl, hm, hex⟩
      rcases h r hr hm with ⟨e, he, hpe⟩
      rw [hex e he] at hpe
      exact Bool.noConfusion hpe

/-- Claim C5 (amended): the exclusion test is Python's `re.match`:
case-insensitive and anchored at the start of the input only.  It vetoes
(globally) exactly when the exclusion's body matches some prefix of the
input — whether or not the whole input matches — with the end of the
match constrained only when the pattern itself ends in `$`. -/
theorem c5_exclusion_start_anchored (e : CompiledPattern) (text : String) :
    (ColumnNameScanner.scan (some e) text =
      if e.pymatch text.data then ∅ else ColumnNameScanner.scan none text) ∧
    (e.pymatch text.data = true ↔
      ∃ u v, text.data = u ++ v ∧ e.body.Matches u ∧
        (e.endAnchor = true → v = [] ∨ v = ['\n'])) := by
  refine ⟨?_, pymatch_eq_true_iff⟩
  by_cases h : e.pymatch text.data
  · rw [if_pos h]
    apply Finset.eq_empty_iff_forall_not_mem.mpr
    intro q hq
    rcases ColumnNameScanner.mem_scanTable.mp hq with ⟨r, hr, rfl, hm, hex⟩
    rw [hex e (Option.mem_def.mpr rfl)] at h
    exact Bool.noConfusion h
  · rw [if_neg h]
    apply Finset.ext
    intro p
    rw [ColumnNameScanner.scan, ColumnNameScanner.scan,
      ColumnNameScanner.mem_scanTable, ColumnNameScanner.mem_scanTable]
    have hf : e.pymatch text.data = false := by simpa using h
    constructor
    · rintro ⟨r, hr, rfl, hm, -⟩
      exact ⟨r, hr, rfl, hm, by simp⟩
    · rintro ⟨r, hr, rfl, hm, -⟩
      refine ⟨r, hr, rfl, hm, ?_⟩
      intro x hx
      rw [Option.mem_def, Option.some_inj] at hx
      exact hx ▸ hf

/-- Counterexample to Claim C5 as stated: the exclusion pattern `user`
(no `$`) does not match the whole input `"userid"`, yet it vetoes every
match — because `re.match` only anchors at the start, a prefix match
suffices to veto. -/
theorem c5_counterexample :
    ColumnNameScanner.scan (some ⟨lits "user", false⟩) "userid" = ∅ ∧
    ColumnNameScanner.scan none "userid" = {PiiTypes.USER_NAME} ∧
    rmatch (lits "user") "userid".data = false := by
  refine ⟨by decide, by decide, by decide⟩

/-- Claim C6: the column-name scan is idempotent — a second call on the
state left by a first call returns the same set — and its result does
not depend on the enumeration order of the rule table. -/
theorem c6_idempotent_order_independent (table₁ table₂ : List (PiiTypes × CompiledPattern))
    (ex : Option CompiledPattern) (text : String) (h : table₁.Perm table₂) :
    (ColumnNameScanner.scanMethod
        ((ColumnNameScanner.scanMethod ⟨ex, table₁⟩ text).2) text).1 =
      (ColumnNameScanner.scanMethod ⟨ex, table₁⟩ text).1 ∧
    ColumnNameScanner.scanTable table₁ ex text =
      ColumnNameScanner.scanTable table₂ ex text := by
  refine ⟨rfl, ?_⟩
  apply Finset.ext
  intro p
  rw [ColumnNameScanner.mem_scanTable, ColumnNameScanner.mem_scanTable]
  constructor <;> rintro ⟨r, hr, hrest⟩
  · exact ⟨r, h.mem_iff.mp hr, hrest⟩
  · exact ⟨r, h.mem_iff.mpr hr, hrest⟩

/-- Witness for C6 at a concrete input: the rule table against its
reversal, on the identifier `"fname"`. -/
theorem c6_witness :
    ColumnNameScanner.scanTable ColumnNameScanner.regex none "fname" =
      ColumnNameScanner.scanTable ColumnNameScanner.regex.reverse none "fname" :=
  (c6_idempotent_order_independent ColumnNameScanner.regex
    ColumnNameScanner.regex.reverse none "fname"
    (List.reverse_perm ColumnNameScanner.regex).symm).2

/-- Claim C7: each `scan` call is a pure function of its text and the
scanner's configuration: running any sequence of calls leaves the
configuration unchanged, and every call's result is determined by its own
text and the initial configuration, independent of interleaving. -/
theorem c7_scan_pure (self : ColumnNameScanner.Self) (texts : List String) :
    (ColumnNameScanner.runCalls self texts).2 = self ∧
    (ColumnNameScanner.runCalls self texts).1 =
      texts.map (fun t => (ColumnNameScanner.scanMethod self t).1) := by
  induction texts with
  | nil => exact ⟨rfl, rfl⟩
  | cons t ts ih =>
      constructor
      · show (ColumnNameScanner.runCalls self ts).2 = self
        exact ih.1
      · show (ColumnNameScanner.scanMethod self t).1 ::
            (ColumnNameScanner.runCalls self ts).1 =
            List.map (fun x => (ColumnNameScanner.scanMethod self x).1) (t :: ts)
        rw [List.map_cons, ih.2]

/-- Claim C8: on the identifier `"fname"` with no exclusion filter, the
column-name scanner returns exactly `{PERSON}`. -/
theorem c8_fname_person :
    ColumnNameScanner.scan none "fname" = {PiiTypes.PERSON} := by
  decide

/-- Claim C9 (amended): on inputs containing no newline character, a
category's rule matches iff the input contains one of the category's
tokens as a case-insensitive substring.  (On inputs with a newline the
two formulations differ: `.` does not match a newline and `$` only allows
a single trailing one.) -/
theorem c9_rule_substring_equiv (p : PiiTypes) (pat : CompiledPattern) (text : String)
    (hmem : (p, pat) ∈ ColumnNameScanner.regex) (hnl : ∀ c ∈ text.data, c ≠ '\n') :
    pat.pymatch text.data = true ↔
      ∃ t ∈ ColumnNameScanner.tokensOf p,
        t.data.map Char.toLower <:+: text.data.map Char.toLower := by
  fin_cases hmem
  · exact rule_pymatch_iff_substring ColumnNameScanner.personTokens (by decide) text.data hnl
  · exact rule_pymatch_iff_substring ColumnNameScanner.emailTokens (by decide) text.data hnl
  · exact rule_pymatch_iff_substring ColumnNameScanner.birthDateTokens (by decide) text.data hnl
  · exact rule_pymatch_iff_substring ColumnNameScanner.genderTokens (by decide) text.data hnl
  · exact rule_pymatch_iff_substring ColumnNameScanner.nationalityTokens (by decide) text.data hnl
  · exact rule_pymatch_iff_substring ColumnNameScanner.addressTokens (by decide) text.data hnl
  · exact user_pymatch_iff_substring text.data hnl
  · exact rule_pymatch_iff_substring ColumnNameScanner.passwordTokens (by decide) text.data hnl
  · exact rule_pymatch_iff_substring ColumnNameScanner.ssnTokens (by decide) text.data hnl
  · exact rule_pymatch_iff_substring ColumnNameScanner.phoneTokens (by decide) text.data hnl
  · exact rule_pymatch_iff_substring ColumnNameScanner.locationTokens (by decide) text.data hnl

/-- Witness for C9 at a concrete input: the PERSON rule on `"fname"`
matches, and indeed a PERSON token occurs as a substring. -/
theorem c9_witness :
    ∃ t ∈ ColumnNameScanner.tokensOf PiiTypes.PERSON,
      t.data.map Char.toLower <:+: "fname".data.map Char.toLower :=
  (c9_rule_substring_equiv PiiTypes.PERSON
    (anchoredRule (altTokens ColumnNameScanner.personTokens)) "fname"
    (by decide) (by decide)).mp (by decide)

/-- Counterexample to Claim C9 as stated: the input `"a\nname"` contains
the PERSON token `"name"` as a case-insensitive substring, but the PERSON
rule does not match it (`.` does not span the newline). -/
theorem c9_counterexample :
    (PiiTypes.PERSON, anchoredRule (altTokens ColumnNameScanner.personTokens)) ∈
        ColumnNameScanner.regex ∧
    "name" ∈ ColumnNameScanner.tokensOf PiiTypes.PERSON ∧
    "name".data.map Char.toLower <:+: "a\nname".data.map Char.toLower ∧
    (anchoredRule (altTokens ColumnNameScanner.personTokens)).pymatch "a\nname".data
      = false := by
  refine ⟨by decide, by decide, by decide, by decide⟩

/-- Claim C10: the constructor takes the exclusion as a sequence; an
empty sequence configures no exclusion, and only the first element of a
non-empty sequence is used — surplus elements are ignored, so
constructing with `p₁ :: rest` scans identically to constructing with
`[p₁]`. -/
theorem c10_surplus_exclusions_dropped (p₁ : CompiledPattern)
    (rest : List CompiledPattern) (text : String) :
    ColumnNameScanner.init [] = none ∧
    ColumnNameScanner.init (p₁ :: rest) = some p₁ ∧
    ColumnNameScanner.scan (ColumnNameScanner.init (p₁ :: rest)) text =
      ColumnNameScanner.scan (ColumnNameScanner.init [p₁]) text := by
  refine ⟨rfl, ?_, ?_⟩ <;> simp [ColumnNameScanner.init]

end Piicatcher
